import Mathlib

/-!
Verification of the htmlwordpress HTML/CSS optimizer service.

The Rust source is shallowly embedded over `List Char` (one entry per Unicode
codepoint; the Rust passes themselves iterate over `char`s collected into a
`Vec<char>`, so this is a faithful model; size fields compare `String::len`
byte counts, which for the ASCII inputs considered here coincide with
codepoint counts).  Scanning loops that advance a cursor are embedded as
fuel-indexed recursions; the top-level wrappers supply fuel `length + 1`,
which is sufficient because every loop iteration of the source consumes at
least one character.  Calls into third-party libraries (the `scraper` HTML5
parser, `serde_json`) are modelled by passing their outputs as explicit
parameters; this is noted at each definition.
-/

namespace HtmlWp

/-- Rust `str::to_lowercase` on a list of codepoints (ASCII-faithful). -/
def lowerL (l : List Char) : List Char := l.map Char.toLower

/-- Rust `str::trim`: drop whitespace from both ends. -/
def trimChars (l : List Char) : List Char :=
  ((l.dropWhile Char.isWhitespace).reverse.dropWhile Char.isWhitespace).reverse

/-- Rust `str::contains(pat)`: `pat` occurs as a contiguous substring. -/
def hasSubstr (pat : List Char) : List Char → Bool
  | [] => pat.isEmpty
  | c :: rest => pat.isPrefixOf (c :: rest) || hasSubstr pat rest

/-- Rust `str::find(pat)`: index of the first occurrence of `pat`. -/
def findSubstrIdx (pat : List Char) : List Char → Option Nat
  | [] => if pat.isEmpty then some 0 else none
  | c :: rest =>
    if pat.isPrefixOf (c :: rest) then some 0
    else (findSubstrIdx pat rest).map (· + 1)

/-- Rust `str::replacen(pat, repl, 1)`: replace the first occurrence. -/
def replaceFirst (pat repl : List Char) : List Char → List Char
  | [] => []
  | c :: rest =>
    if pat.isPrefixOf (c :: rest) then repl ++ (c :: rest).drop pat.length
    else c :: replaceFirst pat repl rest

/-- Rust `str::split(pred)`: split at every separator, keeping empty pieces. -/
def splitByPred (p : Char → Bool) : List Char → List (List Char)
  | [] => [[]]
  | c :: rest =>
    match splitByPred p rest with
    | [] => [[]]
    | h :: t => if p c then [] :: h :: t else (c :: h) :: t

/-- Rust `str::split_whitespace`: maximal non-whitespace runs, no empties. -/
def splitWs : List Char → List (List Char)
  | [] => []
  | c :: rest =>
    let r := splitWs rest
    if c.isWhitespace then r
    else
      match rest with
      | [] => [[c]]
      | d :: _ =>
        if d.isWhitespace then [c] :: r
        else
          match r with
          | [] => [[c]]
          | w :: ws => (c :: w) :: ws

/-! ## `src/css_optimizer.rs` -/

/-- `CssOptimizer`: the used-selector index (the Rust `HashSet<String>` is
modelled as a list queried by membership) and the whitelist patterns. -/
structure CssOptimizer where
  used_selectors : List (List Char)
  whitelist_patterns : List (List Char)
deriving DecidableEq

/-- The whitelist installed by `CssOptimizer::new` (css_optimizer.rs:35-68). -/
def defaultWhitelist : List (List Char) :=
  ["wp-".data, "admin-bar".data,
   "elementor-".data, "e-".data, "et_".data, "et-".data, "divi".data,
   "fl-".data, "vc_".data, "wpb_".data, "avia-".data, "av-".data,
   "wpcf7".data, "gform".data, "gfield".data,
   "woocommerce".data, "wc-".data,
   "active".data, "open".data, "show".data, "hidden".data, "visible".data,
   "hover".data, "focus".data, "selected".data, "disabled".data,
   "loading".data]

/-- `CssOptimizer::new`. -/
def CssOptimizer.new : CssOptimizer :=
  { used_selectors := [], whitelist_patterns := defaultWhitelist }

/-- `CssOptimizer::with_selectors`: `new` plus the given used selectors. -/
def with_selectors (selectors : List (List Char)) : CssOptimizer :=
  { used_selectors := selectors, whitelist_patterns := defaultWhitelist }

/-- Characters allowed inside a class/id atom (css_optimizer.rs:186). -/
def atomChar (c : Char) : Bool := c.isAlphanum || c = '-' || c = '_'

/-- Separators between selector tokens (css_optimizer.rs:174-176). -/
def tokenSep (c : Char) : Bool := c.isWhitespace || c = '>' || c = '+' || c = '~'

/-- `CssOptimizer::parse_selector_parts` (css_optimizer.rs:170-214). -/
def parse_selector_parts (selector : List Char) : List (List Char) :=
  (splitByPred tokenSep selector).flatMap fun tokRaw =>
    let token := trimChars tokRaw
    if token = [] then []
    else
      let classes := ((splitByPred (· = '.') token).drop 1).filterMap fun m =>
        let n := m.takeWhile atomChar
        if n = [] then none else some ('.' :: n)
      let ids := ((splitByPred (· = '#') token).drop 1).filterMap fun m =>
        let n := m.takeWhile atomChar
        if n = [] then none else some ('#' :: n)
      let e := token.takeWhile fun c => !(c = '.' || c = '#' || c = '[' || c = ':')
      let elems :=
        if e ≠ [] ∧ (e.headD ' ').isAlpha then [lowerL e] else []
      classes ++ ids ++ elems

/-- The pseudo-class/pseudo-element exception substrings
(css_optimizer.rs:133-137). -/
def pseudoPatterns : List (List Char) :=
  ["::".data, ":hover".data, ":focus".data, ":active".data, ":before".data,
   ":after".data, ":nth".data, ":first".data, ":last".data, ":not".data]

/-- `CssOptimizer::is_selector_used` (css_optimizer.rs:121-167). -/
def is_selector_used (o : CssOptimizer) (selector : List Char) : Bool :=
  let st := trimChars selector
  let sl := lowerL st
  if o.whitelist_patterns.any fun p => hasSubstr p sl then true
  else if pseudoPatterns.any fun p => hasSubstr p sl then true
  else if sl.headD ' ' = '@' then true
  else if (parse_selector_parts st).any fun part => o.used_selectors.contains part then true
  else if (st.headD ' ').isAlpha then
    o.used_selectors.contains (lowerL (st.takeWhile Char.isAlphanum))
  else false

/-- `CssOptimizer::extract_at_rule` brace-depth scan (css_optimizer.rs:291-318);
the brace counter is an `i32`, hence `Int`. -/
def extractAtRuleGo : List Char → Int → Bool → Option (List Char)
  | [], _, _ => none
  | c :: rest, depth, inRule =>
    if c = '{' then (extractAtRuleGo rest (depth + 1) true).map (c :: ·)
    else if c = '}' then
      if inRule ∧ depth - 1 = 0 then some [c]
      else (extractAtRuleGo rest (depth - 1) inRule).map (c :: ·)
    else (extractAtRuleGo rest depth inRule).map (c :: ·)

/-- `CssOptimizer::extract_at_rule`. -/
def extract_at_rule (css : List Char) : Option (List Char) :=
  extractAtRuleGo css 0 false

/-- `CssOptimizer::minify_rule_body` (css_optimizer.rs:321-328). -/
def minify_rule_body (body : List Char) : List Char :=
  (List.intercalate [';']
    (((splitByPred (· = ';') body).map trimChars).filter (· ≠ []))) ++ [';']

/-- One pass of the `remove_unused_css` scan loop (css_optimizer.rs:228-274),
fuel-indexed; each source iteration consumes at least one character, so fuel
`length + 1` runs the loop to its `break`. -/
def removeUnusedCssGo (o : CssOptimizer) : Nat → List Char → List Char
  | 0, _ => []
  | _ + 1, [] => []
  | fuel + 1, remaining =>
    if remaining.dropWhile (· ≠ '{') = [] then
      -- no `{`: push `remaining.trim()` and break
      trimChars remaining
    else
      let pre := remaining.takeWhile (· ≠ '{')
      let selector := trimChars pre
      let afterBrace := remaining.drop pre.length
      let atRule :=
        if selector.headD ' ' = '@' then extract_at_rule remaining else none
      match atRule with
      | some ruleContent =>
        ruleContent ++ removeUnusedCssGo o fuel (remaining.drop ruleContent.length)
      | none =>
        if afterBrace.dropWhile (· ≠ '}') = [] then
          -- malformed: no `}` after the rule start; keep remainder as-is
          remaining
        else
          let bodyTail := afterBrace.drop 1
          let bodyInner := bodyTail.takeWhile (· ≠ '}')
          let restAfter := (bodyTail.dropWhile (· ≠ '}')).drop 1
          let out :=
            if is_selector_used o selector then
              (List.intercalate [' '] (splitWs selector)) ++ ['{'] ++
                minify_rule_body bodyInner ++ ['}']
            else []
          out ++ removeUnusedCssGo o fuel restAfter

/-- `CssOptimizer::remove_unused_css` (css_optimizer.rs:217-288): the loop
followed by `Ok(result)`. -/
def remove_unused_css (o : CssOptimizer) (css : List Char) : Except (List Char) (List Char) :=
  .ok (removeUnusedCssGo o (css.length + 1) css)

/-! ## `src/optimizer.rs` -/

/-- `optimize_and_treeshake_css` inner search for `</style>`
(optimizer.rs:156-163): advance while at least 8 characters remain and the
8-character window is not `</style>`; returns the content scanned over and
the unscanned remainder. -/
def findCloseStyle : List Char → List Char × List Char
  | [] => ([], [])
  | c :: rest =>
    if (c :: rest).length < 8 then ([], c :: rest)
    else if lowerL ((c :: rest).take 8) = "</style>".data then ([], c :: rest)
    else
      let p := findCloseStyle rest
      (c :: p.1, p.2)

/-- The `optimize_and_treeshake_css` scan loop (optimizer.rs:137-209),
fuel-indexed.  The `CssOptimizer` is a parameter: the source builds it by
`extract_used_selectors`, a walk of the `scraper`-parsed document, which is
a third-party HTML5 parser and is modelled by passing its result in. -/
def treeshakeGo (o : CssOptimizer) : Nat → List Char → List Char
  | 0, _ => []
  | _ + 1, [] => []
  | fuel + 1, l@(c :: rest) =>
    if lowerL (l.take 6) = "<style".data then
      let tagPart := l.takeWhile (· ≠ '>')
      let rest1 := l.dropWhile (· ≠ '>')
      let openTag := tagPart ++ rest1.take 1
      let afterOpen := rest1.drop 1
      let p := findCloseStyle afterOpen
      let cssContent := p.1
      let restClose := p.2
      if cssContent.length > 100000 then
        -- skip tree-shaking for very large CSS blocks
        openTag ++ cssContent ++ "</style>".data ++
          treeshakeGo o fuel (restClose.drop 8)
      else
        match remove_unused_css o cssContent with
        | .ok optimized =>
          openTag ++ optimized ++ "</style>".data ++
            treeshakeGo o fuel (restClose.drop 8)
        | .error _ =>
          openTag ++ cssContent ++ "</style>".data ++
            treeshakeGo o fuel (restClose.drop 8)
    else c :: treeshakeGo o fuel rest

/-- `optimize_and_treeshake_css` (optimizer.rs:123-214), restricted to the
rewritten buffer (the returned counters only feed log strings).
`usedSelectors` stands for the `extract_used_selectors` result. -/
def optimize_and_treeshake_css (usedSelectors : List (List Char))
    (html : List Char) : List Char :=
  treeshakeGo (with_selectors usedSelectors) (html.length + 1) html

/-- State of the `minify_html` scan (optimizer.rs:259-263). -/
structure MinifyState where
  inPre : Bool
  inScript : Bool
  inStyle : Bool
  inComment : Bool
  lastWasSpace : Bool
deriving DecidableEq

/-- Tag-flag update of `minify_html` (optimizer.rs:289-304): an else-if chain
over the lowercased 10-character lookahead window. -/
def minifyFlags (l : List Char) (st : MinifyState) : MinifyState :=
  let rl := lowerL (l.take 10)
  if "<pre".data.isPrefixOf rl then { st with inPre := true }
  else if "</pre".data.isPrefixOf rl then { st with inPre := false }
  else if "<script".data.isPrefixOf rl then { st with inScript := true }
  else if "</script".data.isPrefixOf rl then { st with inScript := false }
  else if "<style".data.isPrefixOf rl then { st with inStyle := true }
  else if "</style".data.isPrefixOf rl then { st with inStyle := false }
  else st

/-- The `minify_html` scan loop (optimizer.rs:269-323), fuel-indexed. -/
def minifyGo : Nat → List Char → MinifyState → List Char
  | 0, _, _ => []
  | _ + 1, [], _ => []
  | fuel + 1, l@(c :: rest), st =>
    if "<!--".data.isPrefixOf l then
      minifyGo fuel (l.drop 4) { st with inComment := true }
    else if st.inComment then
      if "-->".data.isPrefixOf l then
        minifyGo fuel (l.drop 3) { st with inComment := false }
      else minifyGo fuel rest st
    else
      let st := minifyFlags l st
      if st.inPre || st.inScript || st.inStyle then
        c :: minifyGo fuel rest { st with lastWasSpace := false }
      else if c.isWhitespace then
        if st.lastWasSpace then minifyGo fuel rest st
        else ' ' :: minifyGo fuel rest { st with lastWasSpace := true }
      else c :: minifyGo fuel rest { st with lastWasSpace := false }

/-- Initial `minify_html` scan state (optimizer.rs:259-263). -/
def st0 : MinifyState :=
  { inPre := false, inScript := false, inStyle := false, inComment := false,
    lastWasSpace := false }

/-- `minify_html` (optimizer.rs:257-326). -/
def minify_html (html : List Char) : List Char :=
  minifyGo (html.length + 1) html st0

/-- The `add_lazy_loading` scan loop (optimizer.rs:338-370), fuel-indexed. -/
def lazyGo : Nat → List Char → List Char
  | 0, _ => []
  | _ + 1, [] => []
  | fuel + 1, l@(c :: rest) =>
    if lowerL (l.take 4) = "<img".data then
      let tagPart := l.takeWhile (· ≠ '>')
      let rest1 := l.dropWhile (· ≠ '>')
      let imgTag := tagPart ++ rest1.take 1
      let after := rest1.drop 1
      if !hasSubstr "loading=".data imgTag && !hasSubstr "fetchpriority=".data imgTag then
        replaceFirst "<img".data "<img loading=\"lazy\"".data imgTag ++
          lazyGo fuel after
      else imgTag ++ lazyGo fuel after
    else c :: lazyGo fuel rest

/-- `add_lazy_loading` (optimizer.rs:329-374), restricted to the rewritten
buffer (the returned count only feeds a log string). -/
def add_lazy_loading (html : List Char) : List Char :=
  lazyGo (html.length + 1) html

/-- The `defer_scripts` scan loop (optimizer.rs:385-417), fuel-indexed. -/
def deferGo : Nat → List Char → List Char
  | 0, _ => []
  | _ + 1, [] => []
  | fuel + 1, l@(c :: rest) =>
    if lowerL (l.take 7) = "<script".data then
      let tagPart := l.takeWhile (· ≠ '>')
      let rest1 := l.dropWhile (· ≠ '>')
      let scriptTag := tagPart ++ rest1.take 1
      let after := rest1.drop 1
      let lower := lowerL scriptTag
      if !hasSubstr "defer".data lower && !hasSubstr "async".data lower &&
         hasSubstr "src=".data lower then
        replaceFirst "<script".data "<script defer".data scriptTag ++
          deferGo fuel after
      else scriptTag ++ deferGo fuel after
    else c :: deferGo fuel rest

/-- `defer_scripts` (optimizer.rs:377-421), restricted to the rewritten
buffer (the returned count only feeds a log string). -/
def defer_scripts (html : List Char) : List Char :=
  deferGo (html.length + 1) html

/-- `String::insert_str(pos, s)`. -/
def insertAt (pos : Nat) (s l : List Char) : List Char :=
  l.take pos ++ s ++ l.drop pos

/-- `add_preconnect_hints` (optimizer.rs:217-254), restricted to the
rewritten buffer. -/
def add_preconnect_hints (html : List Char) : List Char :=
  let d1 :=
    if hasSubstr "fonts.googleapis.com".data html &&
       !hasSubstr "preconnect".data html then
      ["https://fonts.googleapis.com".data, "https://fonts.gstatic.com".data]
    else []
  let d2 := if hasSubstr "googletagmanager.com".data html then
      ["https://www.googletagmanager.com".data] else []
  let d3 := if hasSubstr "google-analytics.com".data html then
      ["https://www.google-analytics.com".data] else []
  let domains := d1 ++ d2 ++ d3
  if domains = [] then html
  else
    let preconnectHtml := domains.flatMap fun d =>
      "<link rel=\"preconnect\" href=\"".data ++ d ++ "\" crossorigin>".data
    match findSubstrIdx "<head>".data (lowerL html) with
    | some pos => insertAt (pos + 6) preconnectHtml html
    | none => html

/-- `schema_generator::inject_schema` (schema_generator.rs:252-279),
restricted to the rewritten buffer.  `jsonLd` stands for
`generate_schema(html, url, page_type).json_ld`, whose computation walks the
`scraper`-parsed document and renders `serde_json` values (third-party
libraries), and is therefore modelled by passing its result in. -/
def inject_schema (jsonLd : List Char) (html : List Char) : List Char :=
  if hasSubstr "application/ld+json".data html then html
  else if jsonLd = [] then html
  else
    let script :=
      "<script type=\"application/ld+json\">\n".data ++ jsonLd ++
        "\n</script>\n".data
    match findSubstrIdx "</head>".data (lowerL html) with
    | some pos => insertAt pos script html
    | none => html

/-- `f64::round`: round half away from zero, on the exact rationals that
model the `f64` arithmetic of the size accounting. -/
def rustRound (q : ℚ) : ℤ :=
  if 0 ≤ q then ⌊q + 1 / 2⌋ else ⌈q - 1 / 2⌉

/-- `(x * 10.0).round() / 10.0`: round to one decimal place. -/
def round1 (q : ℚ) : ℚ := (rustRound (q * 10) : ℚ) / 10

/-- `error::AppError`. -/
inductive AppError where
  | Unauthorized : AppError
  | BadRequest : List Char → AppError
  | Internal : List Char → AppError
deriving DecidableEq

/-- `handlers::OptimizeOptions` (handlers.rs:40-60). -/
structure OptimizeOptions where
  minify_html : Bool
  minify_css : Bool
  minify_js : Bool
  remove_unused_css : Bool
  convert_webp : Bool
  resize_images : Bool
  defer_js : Bool
  lazy_images : Bool
  optimize_resources : Bool
deriving DecidableEq

/-- `OptimizeOptions::default`: every flag `true`. -/
def OptimizeOptions.default : OptimizeOptions :=
  { minify_html := true, minify_css := true, minify_js := true,
    remove_unused_css := true, convert_webp := true, resize_images := true,
    defer_js := true, lazy_images := true, optimize_resources := true }

/-- `optimizer::OptimizeResult` (optimizer.rs:10-16); the `optimizations`
log-string list is omitted (no claim concerns it). -/
structure OptimizeResult where
  html : List Char
  original_size : Nat
  optimized_size : Nat
  reduction_percent : ℚ
deriving DecidableEq

/-- `optimizer::optimize_html` (optimizer.rs:19-120): the buffer-rewriting
pipeline and the size accounting.  `usedSelectors` models the
`extract_used_selectors` walk of the `scraper`-parsed document and `jsonLd`
the `generate_schema` JSON-LD payload (both third-party-library outputs,
passed in).  Steps that do not modify the buffer (image-dimension count,
image analysis, LCP check) or whose buffer result the source discards (the
SEO pass: `seo_result.html` is never written back at optimizer.rs:71-74)
contribute only log strings and are omitted.  The function's only `return`
is `Ok(...)`. -/
def optimize_html (usedSelectors : List (List Char)) (jsonLd : List Char)
    (html : List Char) (_url : List Char) (options : OptimizeOptions) :
    Except AppError OptimizeResult :=
  let original_size := html.length
  let o1 :=
    if options.minify_css then optimize_and_treeshake_css usedSelectors html
    else html
  let o2 := if options.minify_html then minify_html o1 else o1
  let o3 := if options.lazy_images then add_lazy_loading o2 else o2
  let o4 := if options.defer_js then defer_scripts o3 else o3
  let o5 := add_preconnect_hints o4
  let o6 := inject_schema jsonLd o5
  let optimized_size := o6.length
  let reduction : ℚ :=
    if original_size > 0 then
      (1 - (optimized_size : ℚ) / (original_size : ℚ)) * 100
    else 0
  .ok { html := o6, original_size := original_size,
        optimized_size := optimized_size,
        reduction_percent := round1 reduction }

/-! ## `src/handlers.rs` -/

/-- `handlers::OptimizeResponse` (handlers.rs:87-99), restricted to the
fields the bulk endpoint fills (bulk always sets `images`/`resources` to
`None` and the `optimizations` log strings are omitted). -/
structure OptimizeResponse where
  success : Bool
  optimized_html : List Char
  original_size : Nat
  optimized_size : Nat
  reduction_percent : ℚ
deriving DecidableEq

/-- One page of a bulk request, bundling the request fields with the
modelled third-party-library outputs for that page. -/
structure PageInput where
  html : List Char
  url : List Char
  options : OptimizeOptions
  usedSelectors : List (List Char)
  jsonLd : List Char

/-- `handlers::BulkOptimizeResponse` (handlers.rs:306-311). -/
structure BulkOptimizeResponse where
  success : Bool
  results : List OptimizeResponse
  total_reduction : ℚ

/-- The per-page match of `optimize_bulk` (handlers.rs:338-369). -/
def bulkItem (p : PageInput) : OptimizeResponse :=
  match optimize_html p.usedSelectors p.jsonLd p.html p.url p.options with
  | .ok result =>
    { success := true, optimized_html := result.html,
      original_size := result.original_size,
      optimized_size := result.optimized_size,
      reduction_percent := result.reduction_percent }
  | .error _ =>
    { success := false, optimized_html := p.html, original_size := 0,
      optimized_size := 0, reduction_percent := 0 }

/-- `handlers::optimize_bulk` (handlers.rs:314-382) after the
authentication check: per-item optimization plus aggregate accounting. -/
def optimize_bulk (pages : List PageInput) : BulkOptimizeResponse :=
  let results := pages.map bulkItem
  let total_original := (results.map fun r =>
    if r.success then r.original_size else 0).sum
  let total_optimized := (results.map fun r =>
    if r.success then r.optimized_size else 0).sum
  let total_reduction : ℚ :=
    if total_original > 0 then
      (1 - (total_optimized : ℚ) / (total_original : ℚ)) * 100
    else 0
  { success := true, results := results, total_reduction := total_reduction }

/-! ## `src/resource_optimizer.rs` -/

/-- An element of the `scraper`-parsed document (third-party HTML5 parser,
modelled as the document-order list of elements with their attributes;
`attr` is first-match lookup). -/
structure Element where
  name : List Char
  attrs : List (List Char × List Char)
deriving DecidableEq

/-- `element.value().attr(name)`. -/
def Element.attr (e : Element) (name : List Char) : Option (List Char) :=
  e.attrs.lookup name

/-- `extract_css_links` (resource_optimizer.rs:77-87): `href`s of
`link[rel='stylesheet']` elements, minus data-URLs, empties and
already-local `/htmlwp/` output. -/
def extract_css_links (doc : List Element) : List (List Char) :=
  ((doc.filter fun e =>
      e.name = "link".data && e.attr "rel".data = some "stylesheet".data
    ).filterMap fun e => e.attr "href".data
  ).filter fun href =>
    !"data:".data.isPrefixOf href && href ≠ [] &&
      !hasSubstr "/htmlwp/".data href

/-- `extract_js_sources` (resource_optimizer.rs:90-100): `src`s of
`script[src]` elements, minus data-URLs and empties. -/
def extract_js_sources (doc : List Element) : List (List Char) :=
  ((doc.filter fun e => e.name = "script".data
    ).filterMap fun e => e.attr "src".data
  ).filter fun src => !"data:".data.isPrefixOf src && src ≠ []

/-- The fold-marker set of `extract_critical_css`
(resource_optimizer.rs:333-345). -/
def foldMarkers : List (List Char) :=
  ["@font-face".data, ":root".data, "html".data, "body".data, "header".data,
   "nav".data, ".hero".data, "#hero".data, ".header".data, "#header".data,
   ".site-".data, "@media".data]

/-- `is_critical` check of `extract_critical_css`. -/
def isCriticalRule (rule : List Char) : Bool :=
  foldMarkers.any fun m => hasSubstr m rule

/-- The accumulation loop of `extract_critical_css`
(resource_optimizer.rs:316-351): stop once the accumulated output has
reached `14 * 1024` bytes, skip whitespace-only pieces, append marked
pieces as `trimmed ++ "}" ++ "\n"`. -/
def extractCriticalGo : List (List Char) → List Char → List Char
  | [], acc => acc
  | chunk :: rest, acc =>
    if 14 * 1024 ≤ acc.length then acc
    else
      let rule := trimChars chunk
      if rule = [] then extractCriticalGo rest acc
      else if isCriticalRule rule then
        extractCriticalGo rest (acc ++ rule ++ ['}'] ++ ['\n'])
      else extractCriticalGo rest acc

/-- `extract_critical_css` (resource_optimizer.rs:304-354); the `html`
argument is unused in the source as well. -/
def extract_critical_css (full_css : List Char) (_html : List Char) :
    List Char :=
  extractCriticalGo (splitByPred (· = '}') full_css) []

/-! ## Spec-side definitions and concrete inputs used by the claims -/

/-- Spec-side keep condition, following the claim's words: the head is an
at-rule (starts with `@`), or the lowercase selector text contains a
pseudo-class/pseudo-element exception substring, or some atom produced by
`parse_selector_parts` (or the leading element name when the selector
starts with a letter) is in the used-selector index, or the lowercase
selector text contains a whitelist pattern. -/
def SpecRuleKept (o : CssOptimizer) (selector : List Char) : Prop :=
  (lowerL (trimChars selector)).headD ' ' = '@' ∨
  (pseudoPatterns.any fun p => hasSubstr p (lowerL (trimChars selector))) = true ∨
  (((parse_selector_parts (trimChars selector)).any fun part =>
      o.used_selectors.contains part) = true ∨
    (((trimChars selector).headD ' ').isAlpha = true ∧
      o.used_selectors.contains
        (lowerL ((trimChars selector).takeWhile Char.isAlphanum)) = true)) ∨
  (o.whitelist_patterns.any fun p => hasSubstr p (lowerL (trimChars selector))) = true

instance (o : CssOptimizer) (selector : List Char) :
    Decidable (SpecRuleKept o selector) := by
  unfold SpecRuleKept; infer_instance

/-- The generic dynamic-state whitelist substrings named by the claim. -/
def genericWhitelistSubstrings : List (List Char) :=
  ["e-".data, "active".data, "open".data, "show".data, "hidden".data,
   "visible".data, "hover".data, "focus".data, "selected".data,
   "disabled".data, "loading".data]

/-- Spec-side: the pieces the critical-CSS heuristic would emit with no
size cap — one `trimmed ++ "}" ++ "\n"` piece per fold-marker-containing
rule, in order. -/
def criticalPieces (chunks : List (List Char)) : List (List Char) :=
  chunks.filterMap fun chunk =>
    let rule := trimChars chunk
    if rule = [] then none
    else if isCriticalRule rule then some (rule ++ ['}'] ++ ['\n'])
    else none

/-- Spec-side: the uncapped critical CSS, following the claim's words
(split on `}`, keep exactly the fold-marker rules). -/
def specCriticalAll (css : List Char) : List Char :=
  (criticalPieces (splitByPred (· = '}') css)).flatten

/-- Largest single emitted piece, bounding the cap overshoot. -/
def maxCriticalPiece (css : List Char) : Nat :=
  (criticalPieces (splitByPred (· = '}') css)).foldr (fun p m => max p.length m) 0

/-- First bulk item: a small non-empty page. -/
def c2Page1 : PageInput :=
  { html := "<p>Hello World</p>".data, url := "https://example.com".data,
    options := .default,
    usedSelectors := ["p".data, "html".data, "head".data, "body".data],
    jsonLd := "\x7b\x7d".data }

/-- Second bulk item: empty HTML. -/
def c2Page2 : PageInput := { c2Page1 with html := [] }

/-- Third bulk item: another small non-empty page. -/
def c2Page3 : PageInput :=
  { c2Page1 with
    html := "<div>Bye</div>".data,
    usedSelectors := ["div".data, "html".data, "head".data, "body".data] }

/-- State inside a `<pre>` region. -/
def stPre : MinifyState := { st0 with inPre := true }

/-- State inside a `<script>` region. -/
def stScript : MinifyState := { st0 with inScript := true }

/-- State inside a `<style>` region. -/
def stStyle : MinifyState := { st0 with inStyle := true }

/-- The counterexample input: a single `body` rule of about 14.4 KB. -/
def c4LargeRule : List Char := "body".data ++ '{' :: List.replicate 14400 'a'

/-! ## Shared lemmas -/

theorem hasSubstr_eq_true_iff (pat l : List Char) :
    hasSubstr pat l = true ↔ pat <:+: l := by
  induction l with
  | nil =>
    simp [hasSubstr, List.isEmpty_iff]
  | cons c rest ih =>
    simp only [hasSubstr, Bool.or_eq_true, List.isPrefixOf_iff_prefix, ih,
      List.infix_cons_iff]

theorem ws_toLower {c : Char} (h : c.isWhitespace = true) : c.toLower = c := by
  simp only [Char.isWhitespace, Bool.or_eq_true, decide_eq_true_eq] at h
  rcases h with ((h | h) | h) | h <;> subst h <;> decide

theorem infix_of_infix_ws_append {pat w m : List Char} (hne : pat ≠ [])
    (hws : ∀ c ∈ pat, c.isWhitespace = false)
    (hw : ∀ c ∈ w, c.isWhitespace = true)
    (h : pat <:+: w ++ m) : pat <:+: m := by
  induction w with
  | nil => simpa using h
  | cons x w ih =>
    rcases (List.infix_cons_iff).1 h with hpre | hinf
    · exfalso
      match pat, hne with
      | p :: ps, _ =>
        have hx : p = x := (List.cons_prefix_cons.1 hpre).1
        have := hws p (by simp)
        rw [hx, hw x (by simp)] at this
        simp at this
    · exact ih (fun c hc => hw c (by simp [hc])) hinf

theorem infix_of_append_ws {pat w m : List Char} (hne : pat ≠ [])
    (hws : ∀ c ∈ pat, c.isWhitespace = false)
    (hw : ∀ c ∈ w, c.isWhitespace = true)
    (h : pat <:+: m ++ w) : pat <:+: m := by
  have hrev : pat.reverse <:+: w.reverse ++ m.reverse := by
    rw [← List.reverse_append]
    exact (List.reverse_infix).2 h
  have : pat.reverse <:+: m.reverse :=
    infix_of_infix_ws_append (by simpa using hne)
      (fun c hc => hws c (by simpa using hc))
      (fun c hc => hw c (by simpa using hc)) hrev
  simpa using (List.reverse_infix).1 (by simpa using this)

/-- A list splits around its trim into whitespace margins. -/
theorem trim_decomposition (l : List Char) :
    ∃ w₁ w₂, l = w₁ ++ trimChars l ++ w₂ ∧
      (∀ c ∈ w₁, c.isWhitespace = true) ∧
      (∀ c ∈ w₂, c.isWhitespace = true) := by
  refine ⟨l.takeWhile Char.isWhitespace,
    ((l.dropWhile Char.isWhitespace).reverse.takeWhile Char.isWhitespace).reverse,
    ?_, ?_, ?_⟩
  · unfold trimChars
    conv_lhs => rw [← List.takeWhile_append_dropWhile Char.isWhitespace l]
    rw [List.append_assoc]
    congr 1
    set d := l.dropWhile Char.isWhitespace with hd
    calc d = d.reverse.reverse := (List.reverse_reverse d).symm
      _ = (d.reverse.takeWhile Char.isWhitespace ++
            d.reverse.dropWhile Char.isWhitespace).reverse := by
            rw [List.takeWhile_append_dropWhile]
      _ = (d.reverse.dropWhile Char.isWhitespace).reverse ++
            (d.reverse.takeWhile Char.isWhitespace).reverse := by
            rw [List.reverse_append]
  · intro c hc
    exact List.mem_takeWhile_imp hc
  · intro c hc
    rw [List.mem_reverse] at hc
    exact List.mem_takeWhile_imp hc

theorem takeWhile_append_of_all {p : Char → Bool} {xs : List Char}
    (ys : List Char) (h : ∀ c ∈ xs, p c = true) :
    (xs ++ ys).takeWhile p = xs ++ ys.takeWhile p := by
  induction xs with
  | nil => rfl
  | cons x xs ih =>
    simp only [List.cons_append, List.takeWhile_cons, h x (by simp), if_true]
    rw [ih fun c hc => h c (by simp [hc])]

theorem dropWhile_append_of_all {p : Char → Bool} {xs : List Char}
    (ys : List Char) (h : ∀ c ∈ xs, p c = true) :
    (xs ++ ys).dropWhile p = ys.dropWhile p := by
  induction xs with
  | nil => rfl
  | cons x xs ih =>
    simp only [List.cons_append, List.dropWhile_cons, h x (by simp)]
    exact ih fun c hc => h c (by simp [hc])

theorem removeUnusedCssGo_nil (o : CssOptimizer) (fuel : Nat) :
    removeUnusedCssGo o fuel [] = [] := by
  cases fuel <;> rfl

theorem extractAtRuleGo_brace_free {xs : List Char}
    (h : ∀ c ∈ xs, c ≠ '{' ∧ c ≠ '}') (rest : List Char) (d : Int) (r : Bool) :
    extractAtRuleGo (xs ++ rest) d r = (extractAtRuleGo rest d r).map (xs ++ ·) := by
  induction xs with
  | nil => simp [Option.map_id]
  | cons x xs ih =>
    have hx := h x (by simp)
    have ih' := ih fun c hc => h c (by simp [hc])
    simp only [List.cons_append, extractAtRuleGo, if_neg hx.1, if_neg hx.2,
      List.append_eq]
    rw [ih']
    cases extractAtRuleGo rest d r <;> simp

theorem extractAtRuleGo_body_close {body : List Char}
    (h : ∀ c ∈ body, c ≠ '{' ∧ c ≠ '}') (rest : List Char) :
    extractAtRuleGo (body ++ '}' :: rest) 1 true = some (body ++ ['}']) := by
  rw [extractAtRuleGo_brace_free h]
  simp [extractAtRuleGo]

theorem extract_at_rule_single {sel body : List Char}
    (hsel : ∀ c ∈ sel, c ≠ '{' ∧ c ≠ '}')
    (hbody : ∀ c ∈ body, c ≠ '{' ∧ c ≠ '}') (rest : List Char) :
    extract_at_rule (sel ++ '{' :: (body ++ '}' :: rest)) =
      some (sel ++ '{' :: (body ++ ['}'])) := by
  unfold extract_at_rule
  rw [extractAtRuleGo_brace_free hsel]
  simp [extractAtRuleGo, zero_add, extractAtRuleGo_body_close hbody]

theorem neChar_of_mem {c : Char} {xs : List Char} {a : Char}
    (h : ∀ c ∈ xs, c ≠ a) (hc : c ∈ xs) : (c ≠ a) := h c hc

/-- Scan step on a well-formed single rule whose head is an at-rule. -/
theorem removeUnusedCssGo_atRule {o : CssOptimizer} {fuel : Nat}
    {sel body : List Char} (rest : List Char)
    (hsel : ∀ c ∈ sel, c ≠ '{' ∧ c ≠ '}')
    (hbody : ∀ c ∈ body, c ≠ '{' ∧ c ≠ '}')
    (hat : (trimChars sel).headD ' ' = '@') :
    removeUnusedCssGo o (fuel + 1) (sel ++ '{' :: (body ++ '}' :: rest)) =
      (sel ++ '{' :: (body ++ ['}'])) ++ removeUnusedCssGo o fuel rest := by
  have hsel' : ∀ c ∈ sel, (fun c => decide (c ≠ '{')) c = true := by
    intro c hc; simpa using (hsel c hc).1
  have hdrop : (sel ++ '{' :: (body ++ '}' :: rest)).dropWhile (· ≠ '{') =
      '{' :: (body ++ '}' :: rest) := by
    rw [dropWhile_append_of_all _ hsel']
    simp [List.dropWhile_cons]
  have htake : (sel ++ '{' :: (body ++ '}' :: rest)).takeWhile (· ≠ '{') = sel := by
    rw [takeWhile_append_of_all _ hsel']
    simp [List.takeWhile_cons]
  rw [removeUnusedCssGo]
  rw [if_neg (by rw [hdrop]; simp)]
  simp only [htake]
  rw [if_pos hat, extract_at_rule_single hsel hbody rest]
  have hsplit : (sel ++ '{' :: (body ++ '}' :: rest)) =
      (sel ++ '{' :: (body ++ ['}'])) ++ rest := by simp
  dsimp only
  rw [hsplit, List.drop_left]
  all_goals simp

/-- Scan step on a well-formed single rule whose head is not an at-rule. -/
theorem removeUnusedCssGo_normal {o : CssOptimizer} {fuel : Nat}
    {sel body : List Char} (rest : List Char)
    (hsel : ∀ c ∈ sel, c ≠ '{' ∧ c ≠ '}')
    (hbody : ∀ c ∈ body, c ≠ '{' ∧ c ≠ '}')
    (hat : (trimChars sel).headD ' ' ≠ '@') :
    removeUnusedCssGo o (fuel + 1) (sel ++ '{' :: (body ++ '}' :: rest)) =
      (if is_selector_used o (trimChars sel) then
        List.intercalate [' '] (splitWs (trimChars sel)) ++
          '{' :: (minify_rule_body body ++ ['}'])
       else []) ++ removeUnusedCssGo o fuel rest := by
  have hsel' : ∀ c ∈ sel, (fun c => decide (c ≠ '{')) c = true := by
    intro c hc; simpa using (hsel c hc).1
  have hbody' : ∀ c ∈ body, (fun c => decide (c ≠ '}')) c = true := by
    intro c hc; simpa using (hbody c hc).2
  have hdrop : (sel ++ '{' :: (body ++ '}' :: rest)).dropWhile (· ≠ '{') =
      '{' :: (body ++ '}' :: rest) := by
    rw [dropWhile_append_of_all _ hsel']
    simp [List.dropWhile_cons]
  have htake : (sel ++ '{' :: (body ++ '}' :: rest)).takeWhile (· ≠ '{') = sel := by
    rw [takeWhile_append_of_all _ hsel']
    simp [List.takeWhile_cons]
  have hdropsel : (sel ++ '{' :: (body ++ '}' :: rest)).drop sel.length =
      '{' :: (body ++ '}' :: rest) := List.drop_left sel _
  have hafter : ('{' :: (body ++ '}' :: rest)).dropWhile (· ≠ '}') = '}' :: rest := by
    rw [List.dropWhile_cons, if_pos (by simp)]
    rw [dropWhile_append_of_all _ hbody']
    simp [List.dropWhile_cons]
  have hinner : (body ++ '}' :: rest).takeWhile (· ≠ '}') = body := by
    rw [takeWhile_append_of_all _ hbody']
    simp [List.takeWhile_cons]
  have houter : (body ++ '}' :: rest).dropWhile (· ≠ '}') = '}' :: rest := by
    rw [dropWhile_append_of_all _ hbody']
    simp [List.dropWhile_cons]
  rw [removeUnusedCssGo]
  rw [if_neg (by rw [hdrop]; simp)]
  simp only [htake, hat, ite_false, if_neg hat, hdropsel, hafter, List.drop_one,
    List.tail_cons, hinner, houter, List.drop_succ_cons, List.drop_zero]
  rw [if_neg (by simp)]
  simp [List.append_assoc]
  all_goals simp

/-! ## Claim C1 -/

theorem is_selector_used_iff (o : CssOptimizer) (sel : List Char) :
    is_selector_used o sel = true ↔ SpecRuleKept o sel := by
  unfold is_selector_used SpecRuleKept
  dsimp only
  split_ifs with h1 h2 h3 h4 h5
  · exact ⟨fun _ => Or.inr (Or.inr (Or.inr h1)), fun _ => rfl⟩
  · exact ⟨fun _ => Or.inr (Or.inl h2), fun _ => rfl⟩
  · exact ⟨fun _ => Or.inl h3, fun _ => rfl⟩
  · exact ⟨fun _ => Or.inr (Or.inr (Or.inl (Or.inl h4))), fun _ => rfl⟩
  · constructor
    · intro h
      exact Or.inr (Or.inr (Or.inl (Or.inr ⟨h5, h⟩)))
    · rintro (h | h | (h | ⟨_, h⟩) | h)
      · exact absurd h h3
      · exact absurd h h2
      · exact absurd h h4
      · exact h
      · exact absurd h h1
  · constructor
    · intro h
      exact absurd h (by simp)
    · rintro (h | h | (h | ⟨ha, h⟩) | h)
      · exact absurd h h3
      · exact absurd h h2
      · exact absurd h h4
      · exact absurd ha h5
      · exact absurd h h1

/-- C1: a CSS rule processed by `remove_unused_css` is kept in the output
iff its head is an at-rule (then verbatim), or — per `is_selector_used` —
its lowercase selector text contains a pseudo-class/pseudo-element
exception, or an atom produced by `parse_selector_parts` (or the leading
element name when the selector starts with a letter) is in the
used-selector index, or its lowercase text contains a whitelist pattern;
otherwise it is dropped.  First conjunct: `is_selector_used` agrees with
the claim's disjunction; second: the scan keeps/drops a well-formed rule
accordingly (kept rules are re-emitted minified, at-rules verbatim). -/
theorem c1_css_rule_keep_iff :
    (∀ (o : CssOptimizer) (sel : List Char),
      is_selector_used o sel = true ↔ SpecRuleKept o sel) ∧
    ∀ (o : CssOptimizer) (sel body : List Char),
      (∀ c ∈ sel, c ≠ '{' ∧ c ≠ '}') → (∀ c ∈ body, c ≠ '{' ∧ c ≠ '}') →
      remove_unused_css o (sel ++ '{' :: (body ++ ['}'])) =
        .ok (if (trimChars sel).headD ' ' = '@' then sel ++ '{' :: (body ++ ['}'])
             else if SpecRuleKept o (trimChars sel) then
               List.intercalate [' '] (splitWs (trimChars sel)) ++
                 '{' :: (minify_rule_body body ++ ['}'])
             else []) := by
  refine ⟨is_selector_used_iff, fun o sel body hsel hbody => ?_⟩
  unfold remove_unused_css
  by_cases hat : (trimChars sel).headD ' ' = '@'
  · rw [removeUnusedCssGo_atRule [] hsel hbody hat, removeUnusedCssGo_nil]
    rw [if_pos hat]
    simp
  · rw [removeUnusedCssGo_normal [] hsel hbody hat, removeUnusedCssGo_nil]
    rw [if_neg hat]
    rw [if_congr (is_selector_used_iff o (trimChars sel)) rfl rfl]
    simp

/-- Witness for C1: an unused selector's rule is dropped. -/
theorem c1_css_rule_keep_iff_witness :
    remove_unused_css (with_selectors [".hero".data])
      (".unusedxyz".data ++ '{' :: ("color:red".data ++ ['}'])) = .ok [] := by
  have h := c1_css_rule_keep_iff.2 (with_selectors [".hero".data])
    ".unusedxyz".data "color:red".data (by decide) (by decide)
  rw [h, if_neg (by decide), if_neg (by decide)]

/-! ## Claim C10 -/

theorem hasSubstr_lower_trim {pat sel : List Char} (hne : pat ≠ [])
    (hws : ∀ c ∈ pat, c.isWhitespace = false)
    (h : hasSubstr pat (lowerL sel) = true) :
    hasSubstr pat (lowerL (trimChars sel)) = true := by
  rw [hasSubstr_eq_true_iff] at h ⊢
  obtain ⟨w₁, w₂, hdecomp, hw1, hw2⟩ := trim_decomposition sel
  have hl1 : lowerL w₁ = w₁ := by
    have : w₁.map Char.toLower = w₁.map id :=
      List.map_congr_left fun c hc => ws_toLower (hw1 c hc)
    simpa [lowerL] using this
  have hl2 : lowerL w₂ = w₂ := by
    have : w₂.map Char.toLower = w₂.map id :=
      List.map_congr_left fun c hc => ws_toLower (hw2 c hc)
    simpa [lowerL] using this
  rw [hdecomp] at h
  have hsplit : lowerL (w₁ ++ trimChars sel ++ w₂) =
      w₁ ++ (lowerL (trimChars sel) ++ w₂) := by
    simp only [lowerL, List.map_append, List.append_assoc]
    rw [show List.map Char.toLower w₁ = w₁ from hl1]
    rw [show List.map Char.toLower w₂ = w₂ from hl2]
  rw [hsplit] at h
  exact infix_of_append_ws hne hws hw2
    (infix_of_infix_ws_append hne hws hw1 h)

/-- C10: any selector whose lowercase form contains one of the generic
whitelist substrings anywhere is reported used by `is_selector_used`
(hence its rule kept), regardless of the contents of the usage index. -/
theorem c10_generic_whitelist_keeps (sels : List (List Char))
    (sel pat : List Char) (hmem : pat ∈ genericWhitelistSubstrings)
    (h : hasSubstr pat (lowerL sel) = true) :
    is_selector_used (with_selectors sels) sel = true := by
  have hne : pat ≠ [] := by fin_cases hmem <;> decide
  have hws : ∀ c ∈ pat, c.isWhitespace = false := by fin_cases hmem <;> decide
  have hdw : pat ∈ defaultWhitelist := by fin_cases hmem <;> decide
  have h' := hasSubstr_lower_trim hne hws h
  have hcond : ((with_selectors sels).whitelist_patterns.any fun p =>
      hasSubstr p (lowerL (trimChars sel))) = true :=
    List.any_eq_true.2 ⟨pat, hdw, h'⟩
  unfold is_selector_used
  dsimp only
  rw [if_pos hcond]

/-- Witness for C10: `.sidebar-open` is kept although the usage index is
unrelated. -/
theorem c10_generic_whitelist_keeps_witness :
    is_selector_used (with_selectors ["#unrelated".data])
      ".sidebar-open".data = true :=
  c10_generic_whitelist_keeps _ _ "open".data (by decide) (by decide)

/-! ## Claim C9 -/

theorem extractAtRuleGo_no_close {l : List Char} (h : '}' ∉ l) (d : Int)
    (r : Bool) : extractAtRuleGo l d r = none := by
  induction l generalizing d r with
  | nil => rfl
  | cons c rest ih =>
    simp only [List.mem_cons, not_or] at h
    unfold extractAtRuleGo
    by_cases hbrace : c = '{'
    · simp [hbrace, ih h.2]
    · rw [if_neg hbrace, if_neg fun hc => h.1 hc.symm]
      simp [ih h.2]

/-- C9: `remove_unused_css` is total — it returns `Ok` on every input —
and on an unterminated rule (a `{` with no matching `}`) the scan
terminates by copying the remainder of the input verbatim. -/
theorem c9_remove_unused_css_total (o : CssOptimizer) (css : List Char) :
    (∃ out, remove_unused_css o css = .ok out) ∧
    ('{' ∈ css → '}' ∉ css → remove_unused_css o css = .ok css) := by
  refine ⟨⟨_, rfl⟩, fun hbrace hnoclose => ?_⟩
  unfold remove_unused_css
  rw [removeUnusedCssGo]
  · rw [if_neg (by
      rw [List.dropWhile_eq_nil_iff]
      intro hall
      have := hall '{' hbrace
      simp at this)]
    have hat : (if (trimChars (css.takeWhile (· ≠ '{'))).headD ' ' = '@' then
        extract_at_rule css else none) = none := by
      split_ifs
      · exact extractAtRuleGo_no_close hnoclose 0 false
      · rfl
    dsimp only
    rw [hat]
    rw [if_pos (by
      rw [List.dropWhile_eq_nil_iff]
      intro a ha
      have : a ∈ css := List.mem_of_mem_drop ha
      simp only [decide_eq_true_eq]
      exact fun he => hnoclose (he ▸ this))]
  · intro hnil
    rw [hnil] at hbrace
    simp at hbrace

/-- Witness for C9: an unterminated rule is returned verbatim. -/
theorem c9_remove_unused_css_total_witness :
    remove_unused_css CssOptimizer.new ".a\x7bcolor:red".data =
      .ok ".a\x7bcolor:red".data :=
  (c9_remove_unused_css_total CssOptimizer.new ".a\x7bcolor:red".data).2
    (by decide) (by decide)

/-! ## Claim C5 -/

/-- Counterexample to C5 as stated: a `<script>` whose `src` points at the
optimizer's own already-local `/htmlwp/` output is still returned by
`extract_js_sources` (the local-output exclusion exists only for
stylesheets). -/
theorem c5_js_local_output_counterexample :
    extract_js_sources
        [⟨"script".data, [("src".data, "/htmlwp/scripts.min.js".data)]⟩] =
      ["/htmlwp/scripts.min.js".data] ∧
    hasSubstr "/htmlwp/".data "/htmlwp/scripts.min.js".data = true ∧
    extract_css_links
        [⟨"link".data, [("rel".data, "stylesheet".data),
          ("href".data, "/htmlwp/styles.min.css".data)]⟩] = [] := by
  refine ⟨by decide, by decide, by decide⟩

/-- C5 (amended): discovery returns exactly the stylesheet `href`s and the
script `src`s, excluding data-URLs and empty references for both kinds;
the already-local `/htmlwp/` exclusion applies to stylesheets only. -/
theorem c5_resource_discovery (doc : List Element) (url : List Char) :
    (url ∈ extract_css_links doc ↔
      (∃ e ∈ doc, e.name = "link".data ∧
        e.attr "rel".data = some "stylesheet".data ∧
        e.attr "href".data = some url) ∧
      "data:".data.isPrefixOf url = false ∧ url ≠ [] ∧
      hasSubstr "/htmlwp/".data url = false) ∧
    (url ∈ extract_js_sources doc ↔
      (∃ e ∈ doc, e.name = "script".data ∧ e.attr "src".data = some url) ∧
      "data:".data.isPrefixOf url = false ∧ url ≠ []) := by
  constructor
  · simp only [extract_css_links, List.mem_filter, List.mem_filterMap,
      Bool.and_eq_true, decide_eq_true_eq, Bool.not_eq_true']
    constructor
    · rintro ⟨⟨e, ⟨he, hname, hrel⟩, hhref⟩, ⟨h1, h2⟩, h3⟩
      exact ⟨⟨e, he, hname, hrel, hhref⟩, h1, h2, h3⟩
    · rintro ⟨⟨e, he, hname, hrel, hhref⟩, h1, h2, h3⟩
      exact ⟨⟨e, ⟨he, hname, hrel⟩, hhref⟩, ⟨h1, h2⟩, h3⟩
  · simp only [extract_js_sources, List.mem_filter, List.mem_filterMap,
      Bool.and_eq_true, decide_eq_true_eq, Bool.not_eq_true']
    constructor
    · rintro ⟨⟨e, ⟨he, hname⟩, hsrc⟩, h1, h2⟩
      exact ⟨⟨e, he, hname, hsrc⟩, h1, h2⟩
    · rintro ⟨⟨e, he, hname, hsrc⟩, h1, h2⟩
      exact ⟨⟨e, ⟨he, hname⟩, hsrc⟩, h1, h2⟩

/-! ## Claim C4 -/

theorem extractCriticalGo_prefix_spec (chunks : List (List Char)) (acc : List Char) :
    ∃ t, extractCriticalGo chunks acc = acc ++ t ∧
      t <+: (criticalPieces chunks).flatten := by
  induction chunks generalizing acc with
  | nil => exact ⟨[], by simp [extractCriticalGo]⟩
  | cons chunk rest ih =>
    unfold extractCriticalGo
    by_cases hcap : 14 * 1024 ≤ acc.length
    · exact ⟨[], by simp [hcap], List.nil_prefix⟩
    · rw [if_neg hcap]
      dsimp only
      by_cases hempty : trimChars chunk = []
      · rw [if_pos hempty]
        obtain ⟨t, ht, hpre⟩ := ih acc
        exact ⟨t, ht, by simpa [criticalPieces, hempty] using hpre⟩
      · rw [if_neg hempty]
        by_cases hcrit : isCriticalRule (trimChars chunk) = true
        · rw [if_pos hcrit]
          obtain ⟨t, ht, hpre⟩ := ih (acc ++ (trimChars chunk ++ ['}'] ++ ['\n']))
          refine ⟨trimChars chunk ++ ['}'] ++ ['\n'] ++ t, by simpa using ht, ?_⟩
          have : (criticalPieces (chunk :: rest)).flatten =
              (trimChars chunk ++ ['}'] ++ ['\n']) ++ (criticalPieces rest).flatten := by
            simp [criticalPieces, hempty, hcrit]
          rw [this]
          simpa [List.append_assoc] using
            (List.prefix_append_right_inj (trimChars chunk ++ ['}'] ++ ['\n'])).2 hpre
        · rw [if_neg hcrit]
          obtain ⟨t, ht, hpre⟩ := ih acc
          refine ⟨t, ht, ?_⟩
          have : (criticalPieces (chunk :: rest)).flatten =
              (criticalPieces rest).flatten := by
            simp [criticalPieces, hempty, hcrit]
          rw [this]
          exact hpre

theorem extractCriticalGo_small (chunks : List (List Char)) (acc : List Char)
    (h : acc.length + (criticalPieces chunks).flatten.length ≤ 14 * 1024) :
    extractCriticalGo chunks acc = acc ++ (criticalPieces chunks).flatten := by
  induction chunks generalizing acc with
  | nil => simp [extractCriticalGo, criticalPieces]
  | cons chunk rest ih =>
    unfold extractCriticalGo
    by_cases hcap : 14 * 1024 ≤ acc.length
    · rw [if_pos hcap]
      have hflat : (criticalPieces (chunk :: rest)).flatten.length = 0 := by omega
      simp [List.length_eq_zero.1 hflat]
    · rw [if_neg hcap]
      dsimp only
      by_cases hempty : trimChars chunk = []
      · rw [if_pos hempty]
        have heq : criticalPieces (chunk :: rest) = criticalPieces rest := by
          simp [criticalPieces, hempty]
        rw [heq] at h ⊢
        exact ih acc h
      · rw [if_neg hempty]
        by_cases hcrit : isCriticalRule (trimChars chunk) = true
        · rw [if_pos hcrit]
          have heq : (criticalPieces (chunk :: rest)).flatten =
              (trimChars chunk ++ ['}'] ++ ['\n']) ++ (criticalPieces rest).flatten := by
            simp [criticalPieces, hempty, hcrit]
          rw [heq] at h ⊢
          have hassoc : acc ++ trimChars chunk ++ ['}'] ++ ['\n'] =
              acc ++ (trimChars chunk ++ ['}'] ++ ['\n']) := by
            simp [List.append_assoc]
          rw [hassoc, ih (acc ++ (trimChars chunk ++ ['}'] ++ ['\n']))
            (by simp only [List.length_append] at h ⊢; omega)]
          simp
        · rw [if_neg hcrit]
          have heq : criticalPieces (chunk :: rest) = criticalPieces rest := by
            simp [criticalPieces, hempty, hcrit]
          rw [heq] at h ⊢
          exact ih acc h

theorem extractCriticalGo_bound (chunks : List (List Char)) (acc : List Char) :
    (extractCriticalGo chunks acc).length ≤
      max acc.length
        (14 * 1024 - 1 +
          (criticalPieces chunks).foldr (fun p m => max p.length m) 0) := by
  induction chunks generalizing acc with
  | nil => simp [extractCriticalGo]
  | cons chunk rest ih =>
    unfold extractCriticalGo
    by_cases hcap : 14 * 1024 ≤ acc.length
    · rw [if_pos hcap]
      exact le_max_left _ _
    · rw [if_neg hcap]
      dsimp only
      by_cases hempty : trimChars chunk = []
      · rw [if_pos hempty]
        have heq : criticalPieces (chunk :: rest) = criticalPieces rest := by
          simp [criticalPieces, hempty]
        rw [heq]
        exact ih acc
      · rw [if_neg hempty]
        by_cases hcrit : isCriticalRule (trimChars chunk) = true
        · rw [if_pos hcrit]
          have heq : criticalPieces (chunk :: rest) =
              (trimChars chunk ++ ['}'] ++ ['\n']) :: criticalPieces rest := by
            simp [criticalPieces, hempty, hcrit]
          rw [heq]
          have hassoc : acc ++ trimChars chunk ++ ['}'] ++ ['\n'] =
              acc ++ (trimChars chunk ++ ['}'] ++ ['\n']) := by
            simp [List.append_assoc]
          rw [hassoc]
          refine le_trans (ih (acc ++ (trimChars chunk ++ ['}'] ++ ['\n']))) ?_
          rw [List.foldr_cons]
          apply max_le
          · rw [List.length_append]
            have hle : acc.length ≤ 14 * 1024 - 1 := by omega
            refine le_trans (Nat.add_le_add_right hle _) ?_
            refine le_trans (Nat.add_le_add_left (le_max_left _ _) _)
              (le_max_right _ _)
          · refine le_trans (Nat.add_le_add_left (le_max_right _ _) _)
              (le_max_right _ _)
        · rw [if_neg hcrit]
          have heq : criticalPieces (chunk :: rest) = criticalPieces rest := by
            simp [criticalPieces, hempty, hcrit]
          rw [heq]
          exact ih acc

theorem splitByPred_ne_nil (p : Char → Bool) (l : List Char) :
    splitByPred p l ≠ [] := by
  cases l with
  | nil => simp [splitByPred]
  | cons c rest =>
    unfold splitByPred
    cases splitByPred p rest with
    | nil => simp
    | cons a t =>
      by_cases hc : p c = true <;> simp [hc]

theorem splitByPred_prepend_neg {p : Char → Bool} {l : List Char}
    (h : ∀ c ∈ l, p c = false) (ys : List Char) :
    splitByPred p (l ++ ys) =
      match splitByPred p ys with
      | [] => [l]
      | h' :: t => (l ++ h') :: t := by
  induction l with
  | nil =>
    cases hys : splitByPred p ys with
    | nil => exact absurd hys (splitByPred_ne_nil p ys)
    | cons a t => simp [hys]
  | cons c cl ih =>
    have hc := h c (by simp)
    rw [List.cons_append, splitByPred]
    rw [ih fun d hd => h d (by simp [hd])]
    cases hys : splitByPred p ys with
    | nil => simp [hc]
    | cons a t => simp [hc]

theorem trimChars_of_no_ws {l : List Char}
    (h : ∀ c ∈ l, c.isWhitespace = false) : trimChars l = l := by
  unfold trimChars
  cases l with
  | nil => rfl
  | cons c r =>
    rw [List.dropWhile_cons, if_neg (by simp [h c (by simp)])]
    have hrev : (c :: r).reverse.dropWhile Char.isWhitespace = (c :: r).reverse := by
      cases hv : (c :: r).reverse with
      | nil => rfl
      | cons d t =>
        have hd : d ∈ (c :: r).reverse := by rw [hv]; simp
        rw [List.mem_reverse] at hd
        rw [List.dropWhile_cons, if_neg (by simp [h d hd])]
    rw [hrev, List.reverse_reverse]

theorem hasSubstr_prepend (pat rest : List Char) :
    hasSubstr pat (pat ++ rest) = true := by
  rw [hasSubstr_eq_true_iff]
  exact (List.prefix_append pat rest).isInfix

/-- Counterexample to C4 as stated: the output of `extract_critical_css`
exceeds 14336 bytes, because the cap is only checked before appending a
rule. -/
theorem c4_critical_css_cap_counterexample :
    14336 < (extract_critical_css (c4LargeRule ++ ['}']) []).length := by
  have hnows : ∀ c ∈ c4LargeRule, c.isWhitespace = false := by
    intro c hc
    unfold c4LargeRule at hc
    simp only [List.mem_append, List.mem_cons, List.mem_replicate] at hc
    rcases hc with (hc | hc | hc | hc | hc) | hc | ⟨-, hc⟩ <;>
      first
        | (subst hc; decide)
        | simp at hc
  have hnobr : ∀ c ∈ c4LargeRule, (fun c => decide (c = '}')) c = false := by
    intro c hc
    unfold c4LargeRule at hc
    simp only [List.mem_append, List.mem_cons, List.mem_replicate] at hc
    simp only [decide_eq_false_iff_not]
    rcases hc with (hc | hc | hc | hc | hc) | hc | ⟨-, hc⟩ <;>
      first
        | (subst hc; decide)
        | simp at hc
  have hlenRule : c4LargeRule.length = 14405 := by
    unfold c4LargeRule
    simp only [List.length_append, List.length_cons, List.length_replicate]
    rfl
  unfold extract_critical_css
  rw [splitByPred_prepend_neg hnobr]
  have hsplit : splitByPred (fun c => decide (c = '}')) ['}'] = [[], []] := rfl
  rw [hsplit]
  dsimp only
  rw [List.append_nil]
  unfold extractCriticalGo
  rw [if_neg (by simp)]
  dsimp only
  rw [trimChars_of_no_ws hnows]
  rw [if_neg (by
    intro h
    have hl := congrArg List.length h
    rw [hlenRule] at hl
    simp at hl)]
  rw [if_pos (by
    unfold isCriticalRule c4LargeRule
    refine List.any_eq_true.2 ⟨"body".data, by decide, ?_⟩
    exact hasSubstr_prepend "body".data _)]
  unfold extractCriticalGo
  rw [if_pos (by
    simp only [List.nil_append, List.length_append, hlenRule]
    norm_num)]
  simp only [List.nil_append, List.length_append, hlenRule]
  norm_num

/-- C4 (amended): the critical-CSS heuristic splits on `}` and emits, in
order, exactly the fold-marker rules, but stops accumulating only once the
output has already reached 14 KB; hence the output is a prefix of the
uncapped selection, equals it whenever that selection fits in 14336 bytes,
and in general is bounded by 14335 bytes plus the largest single rule —
it is not capped at 14336 bytes. -/
theorem c4_critical_css_characterization (css html0 : List Char) :
    (extract_critical_css css html0 <+: specCriticalAll css) ∧
    ((specCriticalAll css).length ≤ 14 * 1024 →
      extract_critical_css css html0 = specCriticalAll css) ∧
    (extract_critical_css css html0).length ≤
      14 * 1024 - 1 + maxCriticalPiece css := by
  refine ⟨?_, fun hsmall => ?_, ?_⟩
  · obtain ⟨t, ht, hpre⟩ :=
      extractCriticalGo_prefix_spec (splitByPred (· = '}') css) []
    unfold extract_critical_css specCriticalAll
    rw [ht]
    simpa using hpre
  · unfold extract_critical_css specCriticalAll
    rw [extractCriticalGo_small _ [] (by simpa [specCriticalAll] using hsmall)]
    simp
  · have h := extractCriticalGo_bound (splitByPred (· = '}') css) []
    unfold extract_critical_css maxCriticalPiece
    simpa using h

/-- Witness for C4: on a small stylesheet the extractor returns exactly the
fold-marker rules. -/
theorem c4_critical_css_characterization_witness :
    extract_critical_css ".hero\x7ba:b\x7d .x\x7bc:d\x7d".data [] =
      specCriticalAll ".hero\x7ba:b\x7d .x\x7bc:d\x7d".data :=
  (c4_critical_css_characterization _ []).2.1 (by decide)

/-! ## Claim C8 -/

/-- C8: for every successful single-document optimization, the reported
`reduction_percent` equals `(1 - optimized_size/original_size) * 100`
rounded to one decimal place, where the sizes are the lengths of the input
and output HTML, and the reduction is `0` when `original_size` is `0`. -/
theorem c8_reduction_percent_formula (us : List (List Char))
    (jl html url : List Char) (opts : OptimizeOptions) :
    ∃ r, optimize_html us jl html url opts = .ok r ∧
      r.original_size = html.length ∧
      r.optimized_size = r.html.length ∧
      r.reduction_percent =
        (if r.original_size = 0 then 0
         else round1 ((1 - (r.optimized_size : ℚ) / (r.original_size : ℚ)) * 100)) := by
  refine ⟨_, rfl, rfl, rfl, ?_⟩
  dsimp only
  by_cases h : html.length = 0
  · rw [if_neg (by omega), if_pos h]
    show round1 0 = 0
    unfold round1 rustRound
    norm_num
  · rw [if_pos (by omega), if_neg h]

/-! ## Claim C2 -/

/-- Counterexample to C2 as stated: in the three-item bulk request with an
empty second item, the second result has `success = true` (not `false`):
`optimize_html` has no failing path and the bulk handler does not reject
empty HTML, so the `success = false` branch is unreachable. -/
theorem c2_bulk_empty_item_counterexample :
    ((optimize_bulk [c2Page1, c2Page2, c2Page3]).results.map fun r =>
      r.success) = [true, true, true] := by decide

theorem round1_zero : round1 0 = 0 := by
  unfold round1 rustRound
  rw [if_pos (by norm_num), zero_mul, zero_add]
  have hfl : ⌊(1 / 2 : ℚ)⌋ = 0 := by
    rw [Int.floor_eq_zero_iff]
    constructor <;> norm_num
  rw [hfl]
  norm_num

theorem bulkItem_no_change (p : PageInput)
    (h : (bulkItem p).original_size = (bulkItem p).optimized_size) :
    (bulkItem p).reduction_percent = 0 := by
  have hr : (bulkItem p).reduction_percent =
      round1 (if (bulkItem p).original_size > 0 then
        (1 - ((bulkItem p).optimized_size : ℚ) /
          ((bulkItem p).original_size : ℚ)) * 100
      else 0) := rfl
  rw [hr]
  by_cases hp : (bulkItem p).original_size > 0
  · rw [if_pos hp, ← h]
    have hz : (1 - ((bulkItem p).original_size : ℚ) /
        ((bulkItem p).original_size : ℚ)) * 100 = 0 := by
      rw [div_self (by exact_mod_cast hp.ne')]
      ring
    rw [hz]
    exact round1_zero
  · rw [if_neg hp]
    exact round1_zero

/-- C2 (amended): the bulk response isolates items — three results in
order; the empty item yields `success = true` with both sizes zero and
reduction zero (not `success = false`); the non-empty items succeed with
nonzero sizes. -/
theorem c2_bulk_item_isolation :
    (optimize_bulk [c2Page1, c2Page2, c2Page3]).results.length = 3 ∧
    ((optimize_bulk [c2Page1, c2Page2, c2Page3]).results.map fun r =>
      (r.success, r.original_size, r.optimized_size)) =
      [(true, 18, 18), (true, 0, 0), (true, 14, 14)] ∧
    ((optimize_bulk [c2Page1, c2Page2, c2Page3]).results.map fun r =>
      r.reduction_percent) = [0, 0, 0] := by
  refine ⟨by decide, by decide, ?_⟩
  have hres : (optimize_bulk [c2Page1, c2Page2, c2Page3]).results =
      [bulkItem c2Page1, bulkItem c2Page2, bulkItem c2Page3] := rfl
  rw [hres]
  have e1 : (bulkItem c2Page1).original_size = (bulkItem c2Page1).optimized_size := by
    decide
  have e2 : (bulkItem c2Page2).original_size = (bulkItem c2Page2).optimized_size := by
    decide
  have e3 : (bulkItem c2Page3).original_size = (bulkItem c2Page3).optimized_size := by
    decide
  simp [bulkItem_no_change _ e1, bulkItem_no_change _ e2, bulkItem_no_change _ e3]

/-! ## Scanner lemmas shared by C3, C6 and C7 -/

theorem toLower_ne_lt {c : Char} (h : c ≠ '<') : c.toLower ≠ '<' := by
  unfold Char.toLower
  dsimp only
  split
  · next hr =>
    intro hcon
    have hval : (c.toNat + 32).isValidChar := Or.inl (by omega)
    have h60 : (Char.ofNat (c.toNat + 32)).toNat = c.toNat + 32 := by
      rw [Char.ofNat, dif_pos hval]
      rfl
    rw [hcon] at h60
    have h2 : (60 : Nat) = c.toNat + 32 := by simpa using h60
    omega
  · exact h

/-- A lowercased lookahead window starting at a non-`<` character never
equals a pattern that starts with `<`. -/
theorem window_ne_lt {c : Char} (hc : c ≠ '<') (rest ps : List Char) (n : Nat) :
    lowerL ((c :: rest).take (n + 1)) ≠ '<' :: ps := by
  rw [List.take_succ_cons]
  simp only [lowerL, List.map_cons]
  intro hcon
  injection hcon with h1 h2
  exact toLower_ne_lt hc h1

/-- A pattern that starts with `<` is never a prefix of a list headed by a
non-`<` character. -/
theorem isPrefixOf_lt_cons_false {c : Char} (hc : c ≠ '<') (rest ps : List Char) :
    (('<' :: ps).isPrefixOf (c :: rest)) = false := by
  simp only [List.isPrefixOf_cons₂]
  rw [Bool.and_eq_false_iff]
  left
  simpa using fun h => hc h.symm

theorem deferGo_nil (fuel : Nat) : deferGo fuel [] = [] := by
  cases fuel <;> rfl

theorem lazyGo_nil (fuel : Nat) : lazyGo fuel [] = [] := by
  cases fuel <;> rfl

theorem treeshakeGo_nil (o : CssOptimizer) (fuel : Nat) :
    treeshakeGo o fuel [] = [] := by
  cases fuel <;> rfl

theorem replaceFirst_prepend (pat repl x : List Char) (hne : pat ≠ []) :
    replaceFirst pat repl (pat ++ x) = repl ++ x := by
  cases pat with
  | nil => exact absurd rfl hne
  | cons p ps =>
    rw [List.cons_append, replaceFirst]
    rw [if_pos (List.isPrefixOf_iff_prefix.2
      (by rw [← List.cons_append]; exact List.prefix_append _ x))]
    rw [← List.cons_append, List.drop_left]

/-- Characters not equal to `<` are copied verbatim by the `defer_scripts`
scan, one fuel unit per character. -/
theorem deferGo_copy {xs : List Char} (h : ∀ c ∈ xs, c ≠ '<') (k : Nat)
    (rest : List Char) :
    deferGo (xs.length + k) (xs ++ rest) = xs ++ deferGo k rest := by
  induction xs with
  | nil => simp
  | cons c cl ih =>
    have hc := h c (by simp)
    have hlen : (c :: cl).length + k = (cl.length + k) + 1 := by simp; omega
    rw [hlen, List.cons_append, deferGo]
    rw [if_neg (window_ne_lt hc _ _ 6)]
    rw [ih fun d hd => h d (by simp [hd])]
    simp

/-- Characters not equal to `<` are copied verbatim by the lazy-loading
scan. -/
theorem lazyGo_copy {xs : List Char} (h : ∀ c ∈ xs, c ≠ '<') (k : Nat)
    (rest : List Char) :
    lazyGo (xs.length + k) (xs ++ rest) = xs ++ lazyGo k rest := by
  induction xs with
  | nil => simp
  | cons c cl ih =>
    have hc := h c (by simp)
    have hlen : (c :: cl).length + k = (cl.length + k) + 1 := by simp; omega
    rw [hlen, List.cons_append, lazyGo]
    rw [if_neg (window_ne_lt hc _ _ 3)]
    rw [ih fun d hd => h d (by simp [hd])]
    simp

/-- Characters not equal to `<` are copied verbatim by the tree-shaking
scan. -/
theorem treeshakeGo_copy (o : CssOptimizer) {xs : List Char}
    (h : ∀ c ∈ xs, c ≠ '<') (k : Nat) (rest : List Char) :
    treeshakeGo o (xs.length + k) (xs ++ rest) = xs ++ treeshakeGo o k rest := by
  induction xs with
  | nil => simp
  | cons c cl ih =>
    have hc := h c (by simp)
    have hlen : (c :: cl).length + k = (cl.length + k) + 1 := by simp; omega
    rw [hlen, List.cons_append, treeshakeGo]
    rw [if_neg (window_ne_lt hc _ _ 5)]
    rw [ih fun d hd => h d (by simp [hd])]
    simp

/-! ## Claim C6 -/

theorem deferGo_tag_step (attrs tail' : List Char) (k : Nat)
    (hattrs : ∀ c ∈ attrs, c ≠ '>') :
    deferGo (k + 1) ("<script".data ++ (attrs ++ ('>' :: tail'))) =
      (if !hasSubstr "defer".data (lowerL ("<script".data ++ attrs ++ ['>'])) &&
          !hasSubstr "async".data (lowerL ("<script".data ++ attrs ++ ['>'])) &&
          hasSubstr "src=".data (lowerL ("<script".data ++ attrs ++ ['>'])) then
        "<script defer".data ++ (attrs ++ ['>'])
      else "<script".data ++ attrs ++ ['>']) ++ deferGo k tail' := by
  have hgt : ∀ c ∈ "<script".data, (fun c => decide (c ≠ '>')) c = true := by decide
  have hattrs' : ∀ c ∈ attrs, (fun c => decide (c ≠ '>')) c = true := by
    intro c hc; simpa using hattrs c hc
  have hw : lowerL (("<script".data ++ (attrs ++ ('>' :: tail'))).take 7) =
      "<script".data := by
    rw [show (7 : Nat) = ("<script".data).length from rfl, List.take_left]
    decide
  have htw : ("<script".data ++ (attrs ++ ('>' :: tail'))).takeWhile (· ≠ '>') =
      "<script".data ++ attrs := by
    rw [takeWhile_append_of_all _ hgt, takeWhile_append_of_all _ hattrs']
    simp [List.takeWhile_cons]
  have hdw : ("<script".data ++ (attrs ++ ('>' :: tail'))).dropWhile (· ≠ '>') =
      '>' :: tail' := by
    rw [dropWhile_append_of_all _ hgt, dropWhile_append_of_all _ hattrs']
    simp [List.dropWhile_cons]
  rw [show "<script".data ++ (attrs ++ ('>' :: tail')) =
    '<' :: ("script".data ++ (attrs ++ ('>' :: tail'))) from rfl]
  rw [deferGo]
  rw [show '<' :: ("script".data ++ (attrs ++ ('>' :: tail'))) =
    "<script".data ++ (attrs ++ ('>' :: tail')) from rfl]
  rw [if_pos hw]
  dsimp only
  rw [htw, hdw]
  simp only [List.take_succ_cons, List.take_zero, List.drop_succ_cons,
    List.drop_zero]
  by_cases hcond :
      (!hasSubstr "defer".data (lowerL ("<script".data ++ attrs ++ ['>'])) &&
       !hasSubstr "async".data (lowerL ("<script".data ++ attrs ++ ['>'])) &&
       hasSubstr "src=".data (lowerL ("<script".data ++ attrs ++ ['>']))) = true
  · rw [if_pos (by simpa [List.append_assoc] using hcond),
      if_pos (by simpa [List.append_assoc] using hcond)]
    rw [show "<script".data ++ attrs ++ ['>'] =
      "<script".data ++ (attrs ++ ['>']) by simp]
    rw [replaceFirst_prepend _ _ _ (by decide)]
  · rw [if_neg (by simpa [List.append_assoc] using hcond),
      if_neg (by simpa [List.append_assoc] using hcond)]

theorem deferGo_close (k : Nat) :
    deferGo (k + 9) "</script>".data = "</script>".data := by
  have h2 := @deferGo_copy "/script>".data (by decide) k []
  simp only [List.append_nil, deferGo_nil] at h2
  have hlen : ("/script>".data).length = 8 := rfl
  rw [show "</script>".data = '<' :: "/script>".data from rfl]
  rw [show k + 9 = (k + 8) + 1 by omega]
  rw [deferGo]
  rw [if_neg (by decide)]
  rw [show k + 8 = ("/script>".data).length + k by rw [hlen]; omega]
  rw [h2]

/-- C6 (amended): `defer_scripts` leaves a script tag unmodified whenever
its opening-tag text does not contain the substring `src=` (in particular
every plain inline script), and for a lowercase-spelled `<script` tag whose
tag text contains `src=` and neither `defer` nor `async` it inserts
` defer` immediately after the tag name. -/
theorem c6_defer_scripts_scope (pre attrs body : List Char)
    (hpre : ∀ c ∈ pre, c ≠ '<') (hattrs : ∀ c ∈ attrs, c ≠ '<' ∧ c ≠ '>')
    (hbody : ∀ c ∈ body, c ≠ '<') :
    (hasSubstr "src=".data (lowerL ("<script".data ++ attrs ++ ['>'])) = false →
      defer_scripts
          (pre ++ ("<script".data ++ (attrs ++ ('>' :: (body ++ "</script>".data))))) =
        pre ++ ("<script".data ++ (attrs ++ ('>' :: (body ++ "</script>".data))))) ∧
    (hasSubstr "src=".data (lowerL ("<script".data ++ attrs ++ ['>'])) = true →
      hasSubstr "defer".data (lowerL ("<script".data ++ attrs ++ ['>'])) = false →
      hasSubstr "async".data (lowerL ("<script".data ++ attrs ++ ['>'])) = false →
      defer_scripts
          (pre ++ ("<script".data ++ (attrs ++ ('>' :: (body ++ "</script>".data))))) =
        pre ++ ("<script defer".data ++ (attrs ++ ('>' :: (body ++ "</script>".data))))) := by
  have hTlen : ("<script".data ++ (attrs ++ ('>' :: (body ++ "</script>".data)))).length =
      body.length + (attrs.length + 17) := by
    simp [List.length_append]
    omega
  have hscan : deferGo
      ((pre ++ ("<script".data ++ (attrs ++ ('>' :: (body ++ "</script>".data))))).length + 1)
      (pre ++ ("<script".data ++ (attrs ++ ('>' :: (body ++ "</script>".data))))) =
      pre ++ deferGo
        (("<script".data ++ (attrs ++ ('>' :: (body ++ "</script>".data)))).length + 1)
        ("<script".data ++ (attrs ++ ('>' :: (body ++ "</script>".data)))) := by
    rw [show (pre ++ ("<script".data ++ (attrs ++ ('>' :: (body ++ "</script>".data))))).length + 1 =
      pre.length +
        (("<script".data ++ (attrs ++ ('>' :: (body ++ "</script>".data)))).length + 1) by
      simp [List.length_append]
      omega]
    exact deferGo_copy hpre _ _
  have htag := deferGo_tag_step attrs (body ++ "</script>".data)
    ("<script".data ++ (attrs ++ ('>' :: (body ++ "</script>".data)))).length
    (fun c hc => (hattrs c hc).2)
  have htail : deferGo
      ("<script".data ++ (attrs ++ ('>' :: (body ++ "</script>".data)))).length
      (body ++ "</script>".data) = body ++ "</script>".data := by
    rw [show ("<script".data ++ (attrs ++ ('>' :: (body ++ "</script>".data)))).length =
      body.length + ((attrs.length + 8) + 9) by rw [hTlen]]
    rw [deferGo_copy hbody _ _]
    rw [deferGo_close]
  constructor
  · intro hsrc
    unfold defer_scripts
    rw [hscan, htag, htail]
    rw [if_neg (by simp_all)]
    simp [List.append_assoc]
  · intro hsrc hdefer hasync
    unfold defer_scripts
    rw [hscan, htag, htail]
    rw [if_pos (by simp_all)]
    simp [List.append_assoc]

/-- Witness for C6: the claim's own example. -/
theorem c6_defer_scripts_scope_witness :
    defer_scripts "<script src=\"a.js\"></script>".data =
      "<script defer src=\"a.js\"></script>".data := by
  have h := (c6_defer_scripts_scope [] " src=\"a.js\"".data []
    (by decide) (by decide) (by decide)).2 (by decide) (by decide) (by decide)
  simpa using h

/-- Counterexample to C6 as stated: `<script data-src="a.js">x</script>` is
an inline script tag (it has no `src` attribute), yet the pass modifies it,
because the trigger is the substring `src=` anywhere in the tag text. -/
theorem c6_defer_data_src_counterexample :
    defer_scripts "<script data-src=\"a.js\">x</script>".data =
      "<script defer data-src=\"a.js\">x</script>".data := by
  decide

/-! ## Claim C7 -/

theorem findCloseStyle_through {css : List Char} (h : ∀ c ∈ css, c ≠ '<')
    (post : List Char) :
    findCloseStyle (css ++ ("</style>".data ++ post)) =
      (css, "</style>".data ++ post) := by
  induction css with
  | nil =>
    rw [List.nil_append]
    rw [show "</style>".data ++ post = '<' :: ("/style>".data ++ post) from rfl]
    rw [findCloseStyle]
    rw [if_neg (by simp [List.length_append])]
    rw [if_pos (by
      rw [show '<' :: ("/style>".data ++ post) = "</style>".data ++ post from rfl]
      rw [show (8 : Nat) = ("</style>".data).length from rfl, List.take_left]
      decide)]
  | cons c cl ih =>
    have hc := h c (by simp)
    rw [List.cons_append, findCloseStyle]
    rw [if_neg (by simp [List.length_append]; omega)]
    rw [if_neg (window_ne_lt hc _ _ 7)]
    rw [ih fun d hd => h d (by simp [hd])]

theorem treeshakeGo_large_style (o : CssOptimizer) (attrs css post : List Char)
    (k : Nat) (hattrs : ∀ c ∈ attrs, c ≠ '>') (hcss : ∀ c ∈ css, c ≠ '<')
    (hbig : css.length > 100000) :
    treeshakeGo o (k + 1)
        ("<style".data ++ (attrs ++ ('>' :: (css ++ ("</style>".data ++ post))))) =
      (("<style".data ++ attrs) ++ ['>']) ++ css ++ "</style>".data ++
        treeshakeGo o k post := by
  have hgt : ∀ c ∈ "<style".data, (fun c => decide (c ≠ '>')) c = true := by decide
  have hattrs' : ∀ c ∈ attrs, (fun c => decide (c ≠ '>')) c = true := by
    intro c hc; simpa using hattrs c hc
  have hw : lowerL (("<style".data ++ (attrs ++ ('>' :: (css ++ ("</style>".data ++ post))))).take 6) =
      "<style".data := by
    rw [show (6 : Nat) = ("<style".data).length from rfl, List.take_left]
    decide
  have htw : ("<style".data ++ (attrs ++ ('>' :: (css ++ ("</style>".data ++ post))))).takeWhile (· ≠ '>') =
      "<style".data ++ attrs := by
    rw [takeWhile_append_of_all _ hgt, takeWhile_append_of_all _ hattrs']
    simp [List.takeWhile_cons]
  have hdw : ("<style".data ++ (attrs ++ ('>' :: (css ++ ("</style>".data ++ post))))).dropWhile (· ≠ '>') =
      '>' :: (css ++ ("</style>".data ++ post)) := by
    rw [dropWhile_append_of_all _ hgt, dropWhile_append_of_all _ hattrs']
    simp [List.dropWhile_cons]
  rw [show "<style".data ++ (attrs ++ ('>' :: (css ++ ("</style>".data ++ post)))) =
    '<' :: ("style".data ++ (attrs ++ ('>' :: (css ++ ("</style>".data ++ post))))) from rfl]
  rw [treeshakeGo]
  rw [show '<' :: ("style".data ++ (attrs ++ ('>' :: (css ++ ("</style>".data ++ post))))) =
    "<style".data ++ (attrs ++ ('>' :: (css ++ ("</style>".data ++ post)))) from rfl]
  rw [if_pos hw]
  dsimp only
  rw [htw, hdw]
  simp only [List.take_succ_cons, List.take_zero, List.drop_succ_cons,
    List.drop_zero]
  rw [findCloseStyle_through hcss post]
  dsimp only
  rw [if_pos hbig]
  rw [show (8 : Nat) = ("</style>".data).length from rfl, List.drop_left]

/-- C7: a `<style>` block whose content exceeds 100000 bytes is copied into
the output of the CSS tree-shaking pass completely unchanged, and the
document around it is unaffected. -/
theorem c7_large_style_block_passthrough (us : List (List Char))
    (pre attrs css post : List Char)
    (hpre : ∀ c ∈ pre, c ≠ '<') (hattrs : ∀ c ∈ attrs, c ≠ '<' ∧ c ≠ '>')
    (hcss : ∀ c ∈ css, c ≠ '<') (hpost : ∀ c ∈ post, c ≠ '<')
    (hbig : css.length > 100000) :
    optimize_and_treeshake_css us
        (pre ++ ("<style".data ++ (attrs ++ ('>' :: (css ++ ("</style>".data ++ post)))))) =
      pre ++ ("<style".data ++ (attrs ++ ('>' :: (css ++ ("</style>".data ++ post))))) := by
  unfold optimize_and_treeshake_css
  have hTlen : ("<style".data ++ (attrs ++ ('>' :: (css ++ ("</style>".data ++ post))))).length =
      post.length + (css.length + attrs.length + 15) := by
    simp [List.length_append]
    omega
  have hscan : treeshakeGo (with_selectors us)
      ((pre ++ ("<style".data ++ (attrs ++ ('>' :: (css ++ ("</style>".data ++ post)))))).length + 1)
      (pre ++ ("<style".data ++ (attrs ++ ('>' :: (css ++ ("</style>".data ++ post)))))) =
      pre ++ treeshakeGo (with_selectors us)
        (("<style".data ++ (attrs ++ ('>' :: (css ++ ("</style>".data ++ post))))).length + 1)
        ("<style".data ++ (attrs ++ ('>' :: (css ++ ("</style>".data ++ post))))) := by
    rw [show (pre ++ ("<style".data ++ (attrs ++ ('>' :: (css ++ ("</style>".data ++ post)))))).length + 1 =
      pre.length +
        (("<style".data ++ (attrs ++ ('>' :: (css ++ ("</style>".data ++ post))))).length + 1) by
      simp [List.length_append]
      omega]
    exact treeshakeGo_copy _ hpre _ _
  rw [hscan]
  rw [treeshakeGo_large_style _ attrs css post _
    (fun c hc => (hattrs c hc).2) hcss hbig]
  have hpost' : treeshakeGo (with_selectors us)
      ("<style".data ++ (attrs ++ ('>' :: (css ++ ("</style>".data ++ post))))).length post =
      post := by
    rw [show ("<style".data ++ (attrs ++ ('>' :: (css ++ ("</style>".data ++ post))))).length =
      post.length + (css.length + attrs.length + 15) from hTlen]
    have h2 := treeshakeGo_copy (with_selectors us) hpost
      (css.length + attrs.length + 15) []
    simp only [List.append_nil, treeshakeGo_nil] at h2
    exact h2
  rw [hpost']
  simp [List.append_assoc]

/-- Witness for C7: a 100001-byte style block passes through unchanged. -/
theorem c7_large_style_block_passthrough_witness :
    optimize_and_treeshake_css []
        ([] ++ ("<style".data ++ ([] ++ ('>' :: (List.replicate 100001 'a' ++
          ("</style>".data ++ [])))))) =
      [] ++ ("<style".data ++ ([] ++ ('>' :: (List.replicate 100001 'a' ++
        ("</style>".data ++ []))))) := by
  refine c7_large_style_block_passthrough [] [] [] (List.replicate 100001 'a') []
    (by simp) (by simp) ?_ (by simp) ?_
  · intro c hc
    rw [List.eq_of_mem_replicate hc]
    decide
  · rw [List.length_replicate]
    norm_num

/-! ## Claim C3 -/

theorem minifyGo_nil (fuel : Nat) (st : MinifyState) :
    minifyGo fuel [] st = [] := by
  cases fuel <;> rfl

theorem minifyFlags_no_lt {c : Char} (hc : c ≠ '<') (rest : List Char)
    (st : MinifyState) : minifyFlags (c :: rest) st = st := by
  have hwin : ∀ ps : List Char,
      ¬ (('<' :: ps).isPrefixOf (lowerL ((c :: rest).take 10)) = true) := by
    intro ps hcon
    rw [show (10 : Nat) = 9 + 1 from rfl, List.take_succ_cons] at hcon
    simp only [lowerL, List.map_cons] at hcon
    rw [isPrefixOf_lt_cons_false (toLower_ne_lt hc) _ _] at hcon
    exact Bool.false_ne_true hcon
  unfold minifyFlags
  dsimp only
  rw [if_neg (show ¬ ("<pre".data.isPrefixOf
    (lowerL ((c :: rest).take 10)) = true) from hwin "pre".data)]
  rw [if_neg (show ¬ ("</pre".data.isPrefixOf
    (lowerL ((c :: rest).take 10)) = true) from hwin "/pre".data)]
  rw [if_neg (show ¬ ("<script".data.isPrefixOf
    (lowerL ((c :: rest).take 10)) = true) from hwin "script".data)]
  rw [if_neg (show ¬ ("</script".data.isPrefixOf
    (lowerL ((c :: rest).take 10)) = true) from hwin "/script".data)]
  rw [if_neg (show ¬ ("<style".data.isPrefixOf
    (lowerL ((c :: rest).take 10)) = true) from hwin "style".data)]
  rw [if_neg (show ¬ ("</style".data.isPrefixOf
    (lowerL ((c :: rest).take 10)) = true) from hwin "/style".data)]

/-- Inside a verbatim region, characters other than `<` are copied
byte-for-byte by the `minify_html` scan, whitespace included. -/
theorem minifyGo_copy_verbatim {s : List Char} (h : ∀ c ∈ s, c ≠ '<')
    {st : MinifyState} (hcm : st.inComment = false)
    (hlws : st.lastWasSpace = false)
    (hv : (st.inPre || st.inScript || st.inStyle) = true) (k : Nat)
    (rest : List Char) :
    minifyGo (s.length + k) (s ++ rest) st = s ++ minifyGo k rest st := by
  induction s with
  | nil => simp
  | cons c cl ih =>
    have hc := h c (by simp)
    rw [show (c :: cl).length + k = (cl.length + k) + 1 by simp; omega]
    rw [List.cons_append, minifyGo]
    rw [if_neg (by simp [show ("<!--".data.isPrefixOf (c :: (cl ++ rest))) = false
      from isPrefixOf_lt_cons_false hc _ _])]
    rw [if_neg (by simp [hcm])]
    dsimp only
    rw [minifyFlags_no_lt hc]
    rw [if_pos (by simp_all)]
    have hst : { st with lastWasSpace := false } = st := by
      cases st
      simp only [MinifyState.mk.injEq] at hlws ⊢
      simp [hlws]
    rw [hst, ih fun d hd => h d (by simp [hd])]
    simp

theorem minifyGo_open_pre (k : Nat) (s : List Char) :
    minifyGo (k + 5) ("<pre>".data ++ s) st0 =
      "<pre>".data ++ minifyGo k s stPre := rfl

theorem minifyGo_close_pre (k : Nat) :
    minifyGo (k + 6) ("</pre>".data) stPre =
      "</pre>".data ++ minifyGo k [] st0 := rfl

theorem minifyGo_open_script (k : Nat) (s : List Char) :
    minifyGo (k + 8) ("<script>".data ++ s) st0 =
      "<script>".data ++ minifyGo k s stScript := rfl

theorem minifyGo_close_script (k : Nat) :
    minifyGo (k + 9) ("</script>".data) stScript =
      "</script>".data ++ minifyGo k [] st0 := rfl

theorem minifyGo_open_style (k : Nat) (s : List Char) :
    minifyGo (k + 7) ("<style>".data ++ s) st0 =
      "<style>".data ++ minifyGo k s stStyle := rfl

theorem minifyGo_close_style (k : Nat) :
    minifyGo (k + 8) ("</style>".data) stStyle =
      "</style>".data ++ minifyGo k [] st0 := rfl

/-- Counterexample to C3 as stated: the lazy-load injector scans the raw
text with no verbatim-region tracking, so it rewrites an `<img` character
sequence occurring inside a `<script>` element's content. -/
theorem c3_lazy_modifies_verbatim_counterexample :
    add_lazy_loading "<script>x=<img src=a.jpg>;</script>".data =
      "<script>x=<img loading=\"lazy\" src=a.jpg>;</script>".data ∧
    "<script>x=<img loading=\"lazy\" src=a.jpg>;</script>".data ≠
      "<script>x=<img src=a.jpg>;</script>".data := ⟨by decide, by decide⟩

/-- C3 (amended): the whitespace/comment minifier does track verbatim
regions: the contents of `pre`, `script` and `style` elements (here:
containing no `<`) are copied byte-for-byte, whitespace preserved; the
lazy-load injector and script deferral pass, by contrast, operate on the
raw character stream and can rewrite `<img`/`<script` sequences inside
verbatim regions. -/
theorem c3_minify_preserves_verbatim (s : List Char)
    (h : ∀ c ∈ s, c ≠ '<') :
    minify_html ("<pre>".data ++ (s ++ "</pre>".data)) =
      "<pre>".data ++ (s ++ "</pre>".data) ∧
    minify_html ("<script>".data ++ (s ++ "</script>".data)) =
      "<script>".data ++ (s ++ "</script>".data) ∧
    minify_html ("<style>".data ++ (s ++ "</style>".data)) =
      "<style>".data ++ (s ++ "</style>".data) := by
  refine ⟨?_, ?_, ?_⟩
  · unfold minify_html
    rw [show ("<pre>".data ++ (s ++ "</pre>".data)).length + 1 =
      (s.length + 7) + 5 by simp [List.length_append]; try omega]
    rw [minifyGo_open_pre]
    rw [@minifyGo_copy_verbatim s h stPre rfl rfl rfl 7 "</pre>".data]
    have hcl := minifyGo_close_pre 1
    norm_num at hcl
    rw [hcl, minifyGo_nil]
  · unfold minify_html
    rw [show ("<script>".data ++ (s ++ "</script>".data)).length + 1 =
      (s.length + 10) + 8 by simp [List.length_append]; try omega]
    rw [minifyGo_open_script]
    rw [@minifyGo_copy_verbatim s h stScript rfl rfl rfl 10 "</script>".data]
    have hcl := minifyGo_close_script 1
    norm_num at hcl
    rw [hcl, minifyGo_nil]
  · unfold minify_html
    rw [show ("<style>".data ++ (s ++ "</style>".data)).length + 1 =
      (s.length + 9) + 7 by simp [List.length_append]; try omega]
    rw [minifyGo_open_style]
    rw [@minifyGo_copy_verbatim s h stStyle rfl rfl rfl 9 "</style>".data]
    have hcl := minifyGo_close_style 1
    norm_num at hcl
    rw [hcl, minifyGo_nil]

/-- Witness for C3: whitespace runs inside a `<pre>` region survive the
minifier byte-for-byte. -/
theorem c3_minify_preserves_verbatim_witness :
    minify_html ("<pre>".data ++ ("  a  b  ".data ++ "</pre>".data)) =
      "<pre>".data ++ ("  a  b  ".data ++ "</pre>".data) :=
  (c3_minify_preserves_verbatim "  a  b  ".data (by decide)).1

end HtmlWp
